import Mathlib

/-!
Verification of the zero-factory library: a shallow embedding of the
default-resolution / deep-merge engine (src/sequences.ts, utils portion),
the factory composition engine (factories source), and the sequence
helper, together with theorems settling the specification claims.

JavaScript runtime values are modelled by the inductive type `JsVal`.
Object fields are association lists in insertion order; a real JS object
never has duplicate keys, so field lists are canonical (no duplicate
keys) at every construction site used here, and lookups are first-match.
A thrown TypeError is modelled by `Except.error`.
-/

namespace ZeroFactory

/-- A JavaScript runtime value as used by this library: null, undefined,
booleans, (integer) numbers, strings, arrays, Date instances (carrying a
timestamp), plain objects (ordered field lists), and functions.  A
zero-argument generator function is represented by an identifier `id`;
the value returned by calling it is supplied by an environment
`env : Nat -> JsVal` at resolution time. -/
inductive JsVal where
  | vNull
  | vUndefined
  | vBool (b : Bool)
  | vNum (n : Int)
  | vStr (s : String)
  | vArr (xs : List JsVal)
  | vDate (t : Int)
  | vObj (fields : List (String × JsVal))
  | vFn (id : Nat)

namespace JsVal

/-- Runtime check from the source: `val != null && typeof val === "object"
&& !Array.isArray(val) && !(val instanceof Date)`.  Exactly the plain
objects are mergeable. -/
def isMergeable : JsVal → Bool
  | .vObj _ => true
  | _ => false

/-- The check `typeof val === "function"`. -/
def isFunction : JsVal → Bool
  | .vFn _ => true
  | _ => false

/-- Loose-equality-to-null test used by the `??` operator: true exactly
for `null` and `undefined`. -/
def isNullish : JsVal → Bool
  | .vNull => true
  | .vUndefined => true
  | _ => false

end JsVal

/-- First-match lookup in an object field list; a missing property reads
as `undefined`, as in JavaScript. -/
def lookupField : List (String × JsVal) → String → JsVal
  | [], _ => .vUndefined
  | (k, v) :: rest, key => if k = key then v else lookupField rest key

/-- Own-property test (the `key in overrides` check; prototype properties
are not modelled, plain objects only). -/
def hasField : List (String × JsVal) → String → Bool
  | [], _ => false
  | (k, _) :: rest, key => k = key || hasField rest key

/-- Property read `receiver[key]`: throws a TypeError when the receiver
is `null` or `undefined`; reads own properties of objects; arrays and
strings expose index properties and `length`; every other primitive has
no own properties and reads as `undefined`. -/
def jsGetProp : JsVal → String → Except String JsVal
  | .vNull, _ => .error "TypeError: cannot read properties of null"
  | .vUndefined, _ => .error "TypeError: cannot read properties of undefined"
  | .vObj fields, key => .ok (lookupField fields key)
  | .vArr xs, key =>
      .ok (if key = "length" then .vNum xs.length
           else match key.toNat? with
                | some i => if toString i = key then xs.getD i .vUndefined else .vUndefined
                | none => .vUndefined)
  | .vStr s, key =>
      .ok (if key = "length" then .vNum s.length
           else match key.toNat? with
                | some i =>
                    if toString i = key then
                      match s.toList.drop i with
                      | [] => .vUndefined
                      | c :: _ => .vStr (String.mk [c])
                    else .vUndefined
                | none => .vUndefined)
  | _, _ => .ok .vUndefined

/-- Own enumerable string keys of a value, in insertion order (object
keys; array and string index keys; nothing for other primitives).  Used
by object spread and `for ... in`. -/
def ownKeys : JsVal → List String
  | .vObj fields => fields.map (·.1)
  | .vArr xs => (List.range xs.length).map toString
  | .vStr s => (List.range s.length).map toString
  | _ => []

/-- Keys of the object spread of base then overrides, as produced by
Object.keys: the keys of `base` in order, then the keys of `overrides`
not already present. -/
def spreadKeys (base ov : JsVal) : List String :=
  ownKeys base ++ (ownKeys ov).filter (fun k => ¬ (ownKeys base).contains k)

/-- The predicate of the entry filter in deepMerge: an entry is a
two-element array (modelled as a pair) and an array is never loosely
equal to null, so the test is constantly true. -/
def entryNotNull : String × JsVal → Bool := fun _ => true

theorem sizeOf_lookupField_lt (fields : List (String × JsVal)) (key : String)
    (h : hasField fields key = true) :
    sizeOf (lookupField fields key) < sizeOf fields := by
  induction fields with
  | nil => simp [hasField] at h
  | cons p rest ih =>
      obtain ⟨k, v⟩ := p
      simp only [hasField, Bool.or_eq_true, decide_eq_true_eq] at h
      simp only [lookupField]
      by_cases hk : k = key
      · rw [if_pos hk]
        simp only [List.cons.sizeOf_spec, Prod.mk.sizeOf_spec]
        omega
      · rw [if_neg hk]
        have h2 : hasField rest key = true := by
          rcases h with h | h
          · exact absurd h hk
          · exact h
        have := ih h2
        simp only [List.cons.sizeOf_spec]
        omega

mutual

/-- The function deepMerge from the source (current version): if the
overrides value is not a mergeable object, return `overrides ?? base`
(so both `undefined` and `null` keep the base at this level); otherwise
map over the keys of the spread of base and overrides, and for each key
read the base value (a property read that throws on a null or undefined
base), keep the base value when the key is absent from overrides,
recurse when the override value is mergeable, and otherwise take the
override value directly; finally filter the entries with the always-true
entry test and rebuild the object. -/
def deepMerge (base overrides : JsVal) : Except String JsVal :=
  match overrides with
  | .vObj ovFields =>
      match deepMergeKeys base ovFields (spreadKeys base (.vObj ovFields)) with
      | .error e => .error e
      | .ok entries => .ok (.vObj (entries.filter entryNotNull))
  | ov => .ok (if ov.isNullish then base else ov)
termination_by (sizeOf overrides + 1, 0)
decreasing_by
  apply Prod.Lex.left
  simp only [JsVal.vObj.sizeOf_spec]
  omega

/-- The body of the key map inside deepMerge, iterated over the key
list. -/
def deepMergeKeys (base : JsVal) (ovFields : List (String × JsVal)) :
    List String → Except String (List (String × JsVal))
  | [] => .ok []
  | key :: rest =>
      match mergeKeyValue base ovFields key with
      | .error e => .error e
      | .ok v =>
          match deepMergeKeys base ovFields rest with
          | .error e => .error e
          | .ok entries => .ok ((key, v) :: entries)
termination_by keys => (sizeOf ovFields + 1, keys.length + 1)
decreasing_by
  · apply Prod.Lex.right
    simp
  · apply Prod.Lex.right
    simp [List.length_cons]

/-- The merged value computed for one key of the spread: read
`base[key]` first (this may throw), then keep the base value if the key
is not in overrides, else recurse on mergeable override values and take
any other override value directly (including explicit undefined). -/
def mergeKeyValue (base : JsVal) (ovFields : List (String × JsVal))
    (key : String) : Except String JsVal :=
  match jsGetProp base key with
  | .error e => .error e
  | .ok baseValue =>
      if h : hasField ovFields key then
        if (lookupField ovFields key).isMergeable then
          deepMerge baseValue (lookupField ovFields key)
        else .ok (lookupField ovFields key)
      else .ok baseValue
termination_by (sizeOf ovFields + 1, 0)
decreasing_by
  apply Prod.Lex.left
  have := sizeOf_lookupField_lt ovFields key h
  omega

end

/-- Index entries produced by iterating `for key in s` over a string:
one-character strings under their decimal index keys. -/
def strEntries (s : String) : List (String × JsVal) :=
  (List.range s.length).map
    (fun i => (toString i, .vStr (String.mk [s.toList.getD i ' '])))

mutual

/-- The function resolveDefaults from the source: iterate over the own
enumerable keys of the definition and build a fresh object where a
function value is called (its identifier recorded in the returned
trace, its environment-supplied result used verbatim), a mergeable
object value is resolved recursively, and every other value (primitive,
null, array, Date) is used directly.  The second component is the list
of generator identifiers invoked, in invocation order. -/
def resolveDefaults (env : Nat → JsVal) : JsVal → JsVal × List Nat
  | .vObj fields =>
      let r := resolveFields env fields
      (.vObj r.1, r.2)
  | .vArr xs =>
      let r := resolveElems env 0 xs
      (.vObj r.1, r.2)
  | .vStr s => (.vObj (strEntries s), [])
  | _ => (.vObj [], [])

/-- Field-by-field resolution of an object-shaped definition. -/
def resolveFields (env : Nat → JsVal) :
    List (String × JsVal) → List (String × JsVal) × List Nat
  | [] => ([], [])
  | (k, dv) :: rest =>
      let r1 := resolveEntry env dv
      let r2 := resolveFields env rest
      ((k, r1.1) :: r2.1, r1.2 ++ r2.2)

/-- Element-by-element resolution when the iterated value is an array
(its for-in keys are decimal indices). -/
def resolveElems (env : Nat → JsVal) (i : Nat) :
    List JsVal → List (String × JsVal) × List Nat
  | [] => ([], [])
  | x :: rest =>
      let r1 := resolveEntry env x
      let r2 := resolveElems env (i + 1) rest
      ((toString i, r1.1) :: r2.1, r1.2 ++ r2.2)

/-- Resolution of a single default value: the three-way branch of the
source (function, mergeable object, anything else). -/
def resolveEntry (env : Nat → JsVal) : JsVal → JsVal × List Nat
  | .vFn id => (env id, [id])
  | .vObj fields =>
      let r := resolveFields env fields
      (.vObj r.1, r.2)
  | v => (v, [])

end

mutual

/-- Identifiers of the generator functions that one resolveDefaults
call invokes, in invocation order: functions sitting at definition
positions (object fields, recursively; for-in also walks a top-level
array).  Functions stored inside array leaves are never invoked and do
not appear. -/
def fnPositions : JsVal → List Nat
  | .vObj fields => fnPositionsFields fields
  | .vArr xs => fnPositionsElems xs
  | _ => []

/-- Generator identifiers at the positions of an object field list. -/
def fnPositionsFields : List (String × JsVal) → List Nat
  | [] => []
  | (_, dv) :: rest => entryFnPositions dv ++ fnPositionsFields rest

/-- Generator identifiers at the positions of a top-level array. -/
def fnPositionsElems : List JsVal → List Nat
  | [] => []
  | x :: rest => entryFnPositions x ++ fnPositionsElems rest

/-- Generator identifiers invoked when resolving one default value:
a function position is itself invoked, a mergeable object is walked,
and any other value (including an array holding functions) is opaque. -/
def entryFnPositions : JsVal → List Nat
  | .vFn id => [id]
  | .vObj fields => fnPositionsFields fields
  | _ => []

end

/-- The function generateObject from the factories source: resolve the
defaults definition, then deep-merge the caller overrides on top.  The
trace of invoked generator identifiers is returned alongside. -/
def generateObject (env : Nat → JsVal) (defaults overrides : JsVal) :
    Except String JsVal × List Nat :=
  let r := resolveDefaults env defaults
  (deepMerge r.1 overrides, r.2)

/-- Sequential generation of `n` objects; a failure in one generation
propagates and no list is returned. -/
def genObjects (env : Nat → JsVal) (n : Nat) (defaults overrides : JsVal) :
    Except String (List JsVal) :=
  match n with
  | 0 => .ok []
  | m + 1 =>
      match (generateObject env defaults overrides).1 with
      | .error e => .error e
      | .ok v =>
          match genObjects env m defaults overrides with
          | .error e => .error e
          | .ok rest => .ok (v :: rest)

/-- Array length coercion applied by Array.from to the length property:
truncate toward zero and clamp below at zero, with no error for
negative or fractional inputs. -/
def toLengthNat (q : ℚ) : Nat :=
  if q ≤ 0 then 0 else q.floor.toNat

/-- The function generateManyObjects from the factories source:
Array.from with the requested length, each slot produced by a fresh
generateObject call.  The count passes through array length coercion;
there is no validation. -/
def generateManyObjects (env : Nat → JsVal) (count : ℚ)
    (defaults overrides : JsVal) : Except String (List JsVal) :=
  genObjects env (toLengthNat count) defaults overrides

/-- Update or append an entry under a key, as the object spread with a
computed key does at trait registration: an existing key keeps its
position and receives the new value, a new key is appended at the
end. -/
def setEntry {α : Type} : List (String × α) → String → α → List (String × α)
  | [], k, v => [(k, v)]
  | (k2, v2) :: rest, k, v =>
      if k2 = k then (k, v) :: rest else (k2, v2) :: setEntry rest k v

/-- First-match optional lookup in a generic entry list. -/
def findEntry {α : Type} : List (String × α) → String → Option α
  | [], _ => none
  | (k, v) :: rest, key => if k = key then some v else findEntry rest key

/-- The closure state captured by createFactoryInternal: the base
defaults definition and the map from registered trait names to their
merged definitions. -/
structure Factory where
  defaults : JsVal
  traits : List (String × JsVal)

/-- The function createFactory from the factories source: a factory over
the given defaults with no traits registered. -/
def createFactory (defaults : JsVal) : Factory :=
  ⟨defaults, []⟩

/-- Trait registration: compute the merged definition by deep-merging
the trait defaults over the current definition, once, now, and return a
new factory whose trait map adds that entry; the base definition and
the other traits are carried over unchanged.  The deep merge can throw,
hence the Except. -/
def Factory.trait (f : Factory) (name : String) (traitDefaults : JsVal) :
    Except String Factory :=
  match deepMerge f.defaults traitDefaults with
  | .error e => .error e
  | .ok merged => .ok ⟨f.defaults, setEntry f.traits name merged⟩

/-- Calling the base factory function with an override tree (calling it
with no argument passes `undefined`). -/
def Factory.call (f : Factory) (env : Nat → JsVal) (overrides : JsVal) :
    Except String JsVal × List Nat :=
  generateObject env f.defaults overrides

/-- Calling a trait sub-factory: generation from the merged definition
stored under the trait name. -/
def Factory.callTrait (f : Factory) (env : Nat → JsVal) (name : String)
    (overrides : JsVal) : Except String JsVal × List Nat :=
  generateObject env (lookupField f.traits name) overrides

/-- The many operation of the base factory function. -/
def Factory.many (f : Factory) (env : Nat → JsVal) (count : ℚ)
    (overrides : JsVal) : Except String (List JsVal) :=
  generateManyObjects env count f.defaults overrides

/-- The argument accepted by createSequence: nothing, a string prefix,
or a custom definition function. -/
inductive SeqArg where
  | noArg
  | str (s : String)
  | fn (f : Nat → JsVal)

/-- The dispatch of createSequence from the sequences source: a missing
argument (and, because the guard is plain truthiness, also the empty
string) falls back to the identity integer sequence; a nonempty string
prefix produces the template-string sequence; a function is used as
given.  The result is the sequence definition applied at each counter
value. -/
def createSequence : SeqArg → Nat → JsVal
  | .noArg => fun i => .vNum i
  | .str s => if s = "" then fun i => .vNum i
              else fun i => .vStr (s ++ toString i)
  | .fn f => f

/-- One invocation of the closure returned by createSequence: produce
the definition applied at the private counter, then increment the
counter by exactly one. -/
def seqCall (f : Nat → JsVal) (i : Nat) : JsVal × Nat :=
  (f i, i + 1)

/-- Outputs of `n` successive invocations starting from counter `i`. -/
def seqRun (f : Nat → JsVal) : Nat → Nat → List JsVal
  | 0, _ => []
  | n + 1, i => (seqCall f i).1 :: seqRun f n (seqCall f i).2

/-- Counter value after `n` successive invocations starting from
counter `i`. -/
def seqCounter (f : Nat → JsVal) : Nat → Nat → Nat
  | 0, i => i
  | n + 1, i => seqCounter f n (seqCall f i).2

/-- Outputs of the first sequence under an arbitrary interleaving of
invocations of two sequences with private counters `i` and `j`: `true`
steps the first sequence, `false` steps the second. -/
def runTwoA (f g : Nat → JsVal) : List Bool → Nat × Nat → List JsVal
  | [], _ => []
  | true :: cs, (i, j) => f i :: runTwoA f g cs (i + 1, j)
  | false :: cs, (i, j) => runTwoA f g cs (i, j + 1)

/-- The closure state captured by createFactoryInternal in the newer
factories source (the second document concatenated into the factories
test file): the base defaults definition together with the state
record holding the registered trait definitions and the registered
association derivation functions. -/
structure AFactory where
  defaults : JsVal
  traits : List (String × JsVal)
  assocs : List (String × (JsVal → JsVal))

/-- The createFactory entry point of the newer factories source: a
factory over the given defaults whose state starts with empty traits
and empty associations. -/
def createFactoryA (defaults : JsVal) : AFactory :=
  ⟨defaults, [], []⟩

/-- The associate modifier of the newer factories source: it returns
createFactoryInternal over the unchanged base defaults with a state
that carries the traits forward and spreads the association map with
the new key bound to the derivation function. -/
def AFactory.associate (f : AFactory) (key : String)
    (apply : JsVal → JsVal) : AFactory :=
  ⟨f.defaults, f.traits, setEntry f.assocs key apply⟩

/-- The reduce inside the with operation of the newer factories source:
fold over the entries of the supplied association values, starting
from the base defaults; a key registered in the association state has
its derivation function applied to the supplied value and the result
deep-merged onto the accumulator, while an unregistered key leaves the
accumulator unchanged.  A throwing deep merge propagates. -/
def combineAssociations (assocs : List (String × (JsVal → JsVal))) :
    JsVal → List (String × JsVal) → Except String JsVal
  | acc, [] => .ok acc
  | acc, (key, value) :: rest =>
      match findEntry assocs key with
      | none => combineAssociations assocs acc rest
      | some apply =>
          match deepMerge acc (apply value) with
          | .error e => .error e
          | .ok acc2 => combineAssociations assocs acc2 rest

/-- The with operation of the newer factories source: compute the
combined defaults by the association reduce and return a NEW factory,
createFactoryInternal over the combined defaults with the same state,
the original factory left untouched. -/
def AFactory.withAssociations (f : AFactory)
    (values : List (String × JsVal)) : Except String AFactory :=
  match combineAssociations f.assocs f.defaults values with
  | .error e => .error e
  | .ok combined => .ok ⟨combined, f.traits, f.assocs⟩

/-- Calling the base factory function of an association-capable
factory: generation from its defaults definition. -/
def AFactory.call (f : AFactory) (env : Nat → JsVal) (overrides : JsVal) :
    Except String JsVal × List Nat :=
  generateObject env f.defaults overrides

/-- A fixed environment for closed evaluations. -/
def defaultEnv : Nat → JsVal := fun _ => .vUndefined

/-- Total property read used in theorem statements and user derivation
functions: the own property of an object, `undefined` anywhere else. -/
def jsGet : JsVal → String → JsVal
  | .vObj fields, key => lookupField fields key
  | _, _ => .vUndefined

/-- The derivation function of the association example: a partial
override tree assigning the id of the given user to userId. -/
def userDerive : JsVal → JsVal :=
  fun user => .vObj [("userId", jsGet user "id")]

theorem deepMerge_undef (base : JsVal) : deepMerge base .vUndefined = .ok base := by
  simp [deepMerge, JsVal.isNullish]

theorem deepMerge_null (base : JsVal) : deepMerge base .vNull = .ok base := by
  simp [deepMerge, JsVal.isNullish]

theorem jsGetProp_obj (bf : List (String × JsVal)) (key : String) :
    jsGetProp (.vObj bf) key = .ok (lookupField bf key) := rfl

theorem mergeKeyValue_absent (base : JsVal) (f : List (String × JsVal))
    (key : String) (bv : JsVal) (habs : hasField f key = false)
    (hget : jsGetProp base key = .ok bv) :
    mergeKeyValue base f key = .ok bv := by
  rw [mergeKeyValue, hget]
  simp [habs]

theorem mergeKeyValue_present_nonmergeable (base : JsVal)
    (f : List (String × JsVal)) (key : String) (bv : JsVal)
    (hpres : hasField f key = true)
    (hnm : (lookupField f key).isMergeable = false)
    (hget : jsGetProp base key = .ok bv) :
    mergeKeyValue base f key = .ok (lookupField f key) := by
  rw [mergeKeyValue, hget]
  simp [hpres, hnm]

theorem mergeKeyValue_present_mergeable (base : JsVal)
    (f : List (String × JsVal)) (key : String) (bv : JsVal)
    (hpres : hasField f key = true)
    (hm : (lookupField f key).isMergeable = true)
    (hget : jsGetProp base key = .ok bv) :
    mergeKeyValue base f key = deepMerge bv (lookupField f key) := by
  rw [mergeKeyValue, hget]
  simp [hpres, hm]

theorem deepMergeKeys_map_fst (base : JsVal) (f : List (String × JsVal)) :
    ∀ (keys : List String) (entries : List (String × JsVal)),
      deepMergeKeys base f keys = .ok entries →
      entries.map (·.1) = keys := by
  intro keys
  induction keys with
  | nil =>
      intro entries h
      rw [deepMergeKeys] at h
      cases h
      rfl
  | cons key rest ih =>
      intro entries h
      rw [deepMergeKeys] at h
      cases hm : mergeKeyValue base f key with
      | error e => rw [hm] at h; cases h
      | ok v =>
          rw [hm] at h
          cases hr : deepMergeKeys base f rest with
          | error e => rw [hr] at h; cases h
          | ok rentries =>
              rw [hr] at h
              cases h
              simp [ih rentries hr]

theorem mem_spreadKeys (base ov : JsVal) (k : String) :
    k ∈ spreadKeys base ov ↔ k ∈ ownKeys base ∨ k ∈ ownKeys ov := by
  simp only [spreadKeys, List.mem_append, List.mem_filter]
  constructor
  · rintro (h | ⟨h, _⟩)
    · exact Or.inl h
    · exact Or.inr h
  · intro h
    by_cases hb : k ∈ ownKeys base
    · exact Or.inl hb
    · rcases h with h | h
      · exact absurd h hb
      · refine Or.inr ⟨h, ?_⟩
        simpa using hb

theorem deepMerge_obj_ok (bf ovf : List (String × JsVal)) (r : JsVal)
    (h : deepMerge (.vObj bf) (.vObj ovf) = .ok r) :
    ∃ rs, r = .vObj rs ∧
      rs.map (·.1) = spreadKeys (.vObj bf) (.vObj ovf) := by
  rw [deepMerge] at h
  cases hk : deepMergeKeys (.vObj bf) ovf (spreadKeys (.vObj bf) (.vObj ovf)) with
  | error e => rw [hk] at h; cases h
  | ok entries =>
      rw [hk] at h
      cases h
      refine ⟨entries.filter entryNotNull, rfl, ?_⟩
      have hfilter : entries.filter entryNotNull = entries := by
        simp [entryNotNull]
      rw [hfilter]
      exact deepMergeKeys_map_fst _ _ _ _ hk

/-- Structural induction over JsVal with membership hypotheses for the
nested lists. -/
theorem JsVal.indOn {P : JsVal → Prop}
    (hnull : P .vNull) (hundef : P .vUndefined)
    (hbool : ∀ b, P (.vBool b)) (hnum : ∀ n, P (.vNum n))
    (hstr : ∀ s, P (.vStr s)) (hdate : ∀ t, P (.vDate t))
    (hfn : ∀ i, P (.vFn i))
    (harr : ∀ xs, (∀ x ∈ xs, P x) → P (.vArr xs))
    (hobj : ∀ fs, (∀ p ∈ fs, P p.2) → P (.vObj fs)) :
    ∀ v, P v
  | .vNull => hnull
  | .vUndefined => hundef
  | .vBool b => hbool b
  | .vNum n => hnum n
  | .vStr s => hstr s
  | .vDate t => hdate t
  | .vFn i => hfn i
  | .vArr xs =>
      harr xs (fun x hx =>
        JsVal.indOn hnull hundef hbool hnum hstr hdate hfn harr hobj x)
  | .vObj fs =>
      hobj fs (fun p hp =>
        JsVal.indOn hnull hundef hbool hnum hstr hdate hfn harr hobj p.2)
termination_by v => sizeOf v
decreasing_by
  · have h1 := List.sizeOf_lt_of_mem hx
    simp only [JsVal.vArr.sizeOf_spec]
    omega
  · have h1 := List.sizeOf_lt_of_mem hp
    obtain ⟨a, b⟩ := p
    simp only [JsVal.vObj.sizeOf_spec, Prod.mk.sizeOf_spec] at h1 ⊢
    omega

theorem resolveFields_eq (env : Nat → JsVal) (fs : List (String × JsVal)) :
    (resolveFields env fs).1
      = fs.map (fun p => (p.1, (resolveEntry env p.2).1)) := by
  induction fs with
  | nil => rfl
  | cons p rest ih =>
      obtain ⟨k, dv⟩ := p
      simp [resolveFields, ih]

theorem resolveFields_trace (env : Nat → JsVal) (fs : List (String × JsVal))
    (h : ∀ p ∈ fs, (resolveEntry env p.2).2 = entryFnPositions p.2) :
    (resolveFields env fs).2 = fnPositionsFields fs := by
  induction fs with
  | nil => rfl
  | cons p rest ih =>
      obtain ⟨k, dv⟩ := p
      simp only [resolveFields, fnPositionsFields]
      rw [h (k, dv) (List.mem_cons_self _ _),
        ih (fun q hq => h q (List.mem_cons_of_mem _ hq))]

theorem resolveElems_trace (env : Nat → JsVal) (xs : List JsVal)
    (h : ∀ x ∈ xs, (resolveEntry env x).2 = entryFnPositions x) :
    ∀ i, (resolveElems env i xs).2 = fnPositionsElems xs := by
  induction xs with
  | nil => intro i; rfl
  | cons x rest ih =>
      intro i
      simp only [resolveElems, fnPositionsElems]
      rw [h x (List.mem_cons_self _ _),
        ih (fun q hq => h q (List.mem_cons_of_mem _ hq)) (i + 1)]

theorem resolveEntry_trace (env : Nat → JsVal) :
    ∀ v, (resolveEntry env v).2 = entryFnPositions v := by
  refine JsVal.indOn rfl rfl (fun _ => rfl) (fun _ => rfl) (fun _ => rfl)
    (fun _ => rfl) (fun _ => rfl) (fun xs _ => rfl) ?_
  intro fs hfs
  simp only [resolveEntry, entryFnPositions]
  exact resolveFields_trace env fs hfs

theorem resolveDefaults_trace (env : Nat → JsVal) (v : JsVal) :
    (resolveDefaults env v).2 = fnPositions v := by
  cases v with
  | vObj fs =>
      simp only [resolveDefaults, fnPositions]
      exact resolveFields_trace env fs (fun p _ => resolveEntry_trace env p.2)
  | vArr xs =>
      simp only [resolveDefaults, fnPositions]
      exact resolveElems_trace env xs (fun x _ => resolveEntry_trace env x) 0
  | vStr s => rfl
  | vNull => rfl
  | vUndefined => rfl
  | vBool b => rfl
  | vNum n => rfl
  | vDate t => rfl
  | vFn i => rfl

theorem resolveFields_env_indep (env1 env2 : Nat → JsVal)
    (fs : List (String × JsVal))
    (h : ∀ p ∈ fs, entryFnPositions p.2 = [] →
      resolveEntry env1 p.2 = resolveEntry env2 p.2)
    (hfs : fnPositionsFields fs = []) :
    resolveFields env1 fs = resolveFields env2 fs := by
  induction fs with
  | nil => rfl
  | cons p rest ih =>
      obtain ⟨k, dv⟩ := p
      simp only [fnPositionsFields, List.append_eq_nil] at hfs
      simp only [resolveFields]
      rw [h (k, dv) (List.mem_cons_self _ _) hfs.1,
        ih (fun q hq => h q (List.mem_cons_of_mem _ hq)) hfs.2]

theorem resolveElems_env_indep (env1 env2 : Nat → JsVal) (xs : List JsVal)
    (h : ∀ x ∈ xs, entryFnPositions x = [] →
      resolveEntry env1 x = resolveEntry env2 x)
    (hxs : fnPositionsElems xs = []) :
    ∀ i, resolveElems env1 i xs = resolveElems env2 i xs := by
  induction xs with
  | nil => intro i; rfl
  | cons x rest ih =>
      intro i
      simp only [fnPositionsElems, List.append_eq_nil] at hxs
      simp only [resolveElems]
      rw [h x (List.mem_cons_self _ _) hxs.1,
        ih (fun q hq => h q (List.mem_cons_of_mem _ hq)) hxs.2 (i + 1)]

theorem resolveEntry_env_indep (env1 env2 : Nat → JsVal) :
    ∀ v, entryFnPositions v = [] →
      resolveEntry env1 v = resolveEntry env2 v := by
  refine JsVal.indOn (fun _ => rfl) (fun _ => rfl) (fun _ _ => rfl)
    (fun _ _ => rfl) (fun _ _ => rfl) (fun _ _ => rfl) ?_ (fun _ _ _ => rfl) ?_
  · intro i hi
    simp [entryFnPositions] at hi
  · intro fs hfs hempty
    simp only [entryFnPositions] at hempty
    simp only [resolveEntry]
    rw [resolveFields_env_indep env1 env2 fs hfs hempty]

theorem resolveDefaults_env_indep (env1 env2 : Nat → JsVal) (v : JsVal)
    (h : fnPositions v = []) :
    resolveDefaults env1 v = resolveDefaults env2 v := by
  cases v with
  | vObj fs =>
      simp only [fnPositions] at h
      simp only [resolveDefaults]
      rw [resolveFields_env_indep env1 env2 fs
        (fun p _ => resolveEntry_env_indep env1 env2 p.2) h]
  | vArr xs =>
      simp only [fnPositions] at h
      simp only [resolveDefaults]
      rw [resolveElems_env_indep env1 env2 xs
        (fun x _ => resolveEntry_env_indep env1 env2 x) h 0]
  | vStr s => rfl
  | vNull => rfl
  | vUndefined => rfl
  | vBool b => rfl
  | vNum n => rfl
  | vDate t => rfl
  | vFn i => rfl

/-- The relation stating that a resolved value has exactly the key set
of its defaults definition at every nesting level: a function position
is opaque (its returned value is taken verbatim), a non-function
non-mergeable position resolves to itself (arrays and dates are opaque
leaves), and an object position resolves to an object with the same
keys in the same order, each value related recursively. -/
inductive KeysMatch : JsVal → JsVal → Prop where
  | fn (i : Nat) (v : JsVal) : KeysMatch (.vFn i) v
  | leaf (v : JsVal) : v.isFunction = false → v.isMergeable = false →
      KeysMatch v v
  | obj (fs rs : List (String × JsVal)) :
      rs.map (·.1) = fs.map (·.1) →
      (∀ pq ∈ fs.zip rs, KeysMatch pq.1.2 pq.2.2) →
      KeysMatch (.vObj fs) (.vObj rs)

theorem keysMatch_resolveEntry (env : Nat → JsVal) :
    ∀ v, KeysMatch v (resolveEntry env v).1 := by
  refine JsVal.indOn (KeysMatch.leaf _ rfl rfl) (KeysMatch.leaf _ rfl rfl)
    (fun b => KeysMatch.leaf _ rfl rfl) (fun n => KeysMatch.leaf _ rfl rfl)
    (fun s => KeysMatch.leaf _ rfl rfl) (fun t => KeysMatch.leaf _ rfl rfl)
    (fun i => KeysMatch.fn i _) (fun xs _ => KeysMatch.leaf _ rfl rfl) ?_
  intro fs hfs
  simp only [resolveEntry]
  refine KeysMatch.obj fs (resolveFields env fs).1 ?_ ?_
  · rw [resolveFields_eq]
    simp
  · rw [resolveFields_eq]
    intro pq hpq
    induction fs with
    | nil => simp at hpq
    | cons p rest ih =>
        simp only [List.map_cons, List.zip_cons_cons, List.mem_cons] at hpq
        rcases hpq with hpq | hpq
        · subst hpq
          exact hfs p (List.mem_cons_self _ _)
        · exact ih (fun q hq => hfs q (List.mem_cons_of_mem _ hq)) hpq

theorem genObjects_length (env : Nat → JsVal) (defaults overrides : JsVal) :
    ∀ (n : Nat) (l : List JsVal),
      genObjects env n defaults overrides = .ok l → l.length = n := by
  intro n
  induction n with
  | zero =>
      intro l h
      rw [genObjects] at h
      cases h
      rfl
  | succ m ih =>
      intro l h
      rw [genObjects] at h
      cases hg : (generateObject env defaults overrides).1 with
      | error e => rw [hg] at h; cases h
      | ok v =>
          rw [hg] at h
          cases hr : genObjects env m defaults overrides with
          | error e => rw [hr] at h; cases h
          | ok rest =>
              rw [hr] at h
              cases h
              simp [ih rest hr]

theorem findEntry_setEntry_ne {α : Type} (l : List (String × α))
    (k n : String) (v : α) (hne : n ≠ k) :
    findEntry (setEntry l k v) n = findEntry l n := by
  induction l with
  | nil =>
      simp only [setEntry, findEntry]
      rw [if_neg (fun hkn => hne hkn.symm)]
  | cons p rest ih =>
      obtain ⟨pk, pv⟩ := p
      simp only [setEntry]
      by_cases hpk : pk = k
      · rw [if_pos hpk]
        simp only [findEntry]
        rw [if_neg (fun hkn => hne hkn.symm), if_neg ?_]
        intro hpn
        exact hne (hpk ▸ hpn).symm
      · rw [if_neg hpk]
        simp only [findEntry]
        by_cases hpn : pk = n
        · rw [if_pos hpn, if_pos hpn]
        · rw [if_neg hpn, if_neg hpn, ih]

theorem seqRun_eq_map_range' (f : Nat → JsVal) :
    ∀ (n i : Nat), seqRun f n i = (List.range' i n).map f := by
  intro n
  induction n with
  | zero => intro i; rfl
  | succ m ih =>
      intro i
      simp only [seqRun, seqCall, List.range', List.map_cons]
      rw [ih (i + 1)]

theorem seqCounter_eq (f : Nat → JsVal) :
    ∀ (n i : Nat), seqCounter f n i = i + n := by
  intro n
  induction n with
  | zero => intro i; rfl
  | succ m ih =>
      intro i
      simp only [seqCounter, seqCall]
      rw [ih (i + 1)]
      omega

theorem runTwoA_eq_map_range' (f g : Nat → JsVal) :
    ∀ (cs : List Bool) (i j : Nat),
      runTwoA f g cs (i, j) = (List.range' i (cs.count true)).map f := by
  intro cs
  induction cs with
  | nil => intro i j; rfl
  | cons c rest ih =>
      intro i j
      cases c with
      | true =>
          simp only [runTwoA, List.count_cons, if_pos rfl]
          rw [ih (i + 1) j]
          simp [List.range']
      | false =>
          simp only [runTwoA]
          rw [ih i (j + 1)]
          simp [List.count_cons]

/-- Claim C3 counterexample: an override key explicitly present with the
value undefined does not keep the base value one level down — it
replaces it (the repository test suite expects exactly this) — and at
the top level an explicit null override does not replace the base but
keeps it (the nullish fallback). -/
theorem undefined_override_counterexample :
    deepMerge (.vObj [("a", .vNum 1)]) (.vObj [("a", .vUndefined)])
      = .ok (.vObj [("a", .vUndefined)])
  ∧ JsVal.vObj [("a", .vUndefined)] ≠ .vObj [("a", .vNum 1)]
  ∧ deepMerge (.vNum 1) .vNull = .ok (.vNum 1)
  ∧ JsVal.vNum 1 ≠ .vNull := by
  refine ⟨?_, by simp, ?_, by simp⟩
  · simp [deepMerge, deepMergeKeys, mergeKeyValue, spreadKeys, ownKeys,
      jsGetProp, lookupField, hasField, entryNotNull, JsVal.isMergeable,
      JsVal.isNullish]
  · simp [deepMerge, JsVal.isNullish]

/-- Claim C3 (amended): at the top level an overrides argument of
undefined — or of null — keeps the base unchanged; one level down the
base value is kept exactly when the key is absent from the overrides
object, while a key that is present replaces the base value with its
override value (explicit undefined and null included), a mergeable
override value merging recursively into the base value at that key. -/
theorem override_semantics_amended :
    ∀ (base : JsVal) (bf f : List (String × JsVal)) (key : String),
      deepMerge base .vUndefined = .ok base
    ∧ deepMerge base .vNull = .ok base
    ∧ (hasField f key = false →
        mergeKeyValue (.vObj bf) f key = .ok (lookupField bf key))
    ∧ (hasField f key = true → (lookupField f key).isMergeable = false →
        mergeKeyValue (.vObj bf) f key = .ok (lookupField f key))
    ∧ (hasField f key = true → (lookupField f key).isMergeable = true →
        mergeKeyValue (.vObj bf) f key
          = deepMerge (lookupField bf key) (lookupField f key)) := by
  intro base bf f key
  refine ⟨deepMerge_undef base, deepMerge_null base, ?_, ?_, ?_⟩
  · intro habs
    exact mergeKeyValue_absent _ _ _ _ habs (jsGetProp_obj bf key)
  · intro hpres hnm
    exact mergeKeyValue_present_nonmergeable _ _ _ (lookupField bf key)
      hpres hnm (jsGetProp_obj bf key)
  · intro hpres hm
    exact mergeKeyValue_present_mergeable _ _ _ (lookupField bf key)
      hpres hm (jsGetProp_obj bf key)

/-- Witness for the amended claim C3 at concrete inputs: the absent-key
branch keeps the base value, and the present-key branch applied to an
explicit undefined override replaces the base value. -/
theorem override_semantics_amended_witness :
    (hasField [("b", JsVal.vNum 3)] "a" = false
      ∧ mergeKeyValue (.vObj [("a", .vNum 1)]) [("b", JsVal.vNum 3)] "a"
          = .ok (lookupField [("a", JsVal.vNum 1)] "a"))
  ∧ (hasField [("a", JsVal.vUndefined)] "a" = true
      ∧ (lookupField [("a", JsVal.vUndefined)] "a").isMergeable = false
      ∧ mergeKeyValue (.vObj [("a", .vNum 1)]) [("a", JsVal.vUndefined)] "a"
          = .ok (lookupField [("a", JsVal.vUndefined)] "a")) :=
  ⟨⟨by simp [hasField],
    (override_semantics_amended (.vNull) [("a", .vNum 1)]
      [("b", JsVal.vNum 3)] "a").2.2.1 (by simp [hasField])⟩,
   ⟨by simp [hasField], by simp [lookupField, JsVal.isMergeable],
    (override_semantics_amended (.vNull) [("a", .vNum 1)]
      [("a", JsVal.vUndefined)] "a").2.2.2.1 (by simp [hasField])
      (by simp [lookupField, JsVal.isMergeable])⟩⟩

/-- Claim C4 counterexample: a key whose base value is an explicit
undefined and that the overrides object does not mention survives the
merge as an explicit undefined property; nothing is filtered out. -/
theorem undefined_entry_kept_counterexample :
    deepMerge (.vObj [("a", .vUndefined)]) (.vObj [])
      = .ok (.vObj [("a", .vUndefined)])
  ∧ hasField [("a", JsVal.vUndefined)] "a" = true := by
  constructor
  · simp [deepMerge, deepMergeKeys, mergeKeyValue, spreadKeys, ownKeys,
      jsGetProp, lookupField, hasField, entryNotNull, JsVal.isMergeable,
      JsVal.isNullish]
  · simp [hasField]

/-- Claim C4 (amended): the entry filter of deepMerge compares each
computed two-element entry — never its value — against null, and an
entry is never null, so no computed entry is excluded: every key of the
iterated union appears in the merged result, keys whose computed value
is undefined included, as explicit undefined properties. -/
theorem no_entry_filtering_amended :
    ∀ (base : JsVal) (f : List (String × JsVal)) (keys : List String)
      (entries : List (String × JsVal)),
      deepMergeKeys base f keys = .ok entries →
      entries.filter entryNotNull = entries ∧ entries.map (·.1) = keys := by
  intro base f keys entries h
  constructor
  · simp [entryNotNull]
  · exact deepMergeKeys_map_fst base f keys entries h

/-- Witness for the amended claim C4: the computed entries of the
counterexample merge survive the filter and carry every iterated key,
the undefined-valued one included. -/
theorem no_entry_filtering_amended_witness :
    deepMergeKeys (.vObj [("a", .vUndefined)]) [] ["a"] = .ok [("a", .vUndefined)]
  ∧ ([("a", JsVal.vUndefined)].filter entryNotNull = [("a", JsVal.vUndefined)]
      ∧ [("a", JsVal.vUndefined)].map (·.1) = ["a"]) :=
  ⟨by simp [deepMergeKeys, mergeKeyValue, jsGetProp, lookupField, hasField],
   no_entry_filtering_amended (.vObj [("a", .vUndefined)]) [] ["a"]
     [("a", .vUndefined)]
     (by simp [deepMergeKeys, mergeKeyValue, jsGetProp, lookupField,
        hasField])⟩

/-- Claim C6: arrays and date values are never merged key-by-key — an
override array or date replaces the base value wholly, both when the
overrides argument itself is an array or date and at any key of an
object-shaped merge; in particular merging a over the base replaces the
whole array. -/
theorem array_date_atomicity :
    deepMerge (.vObj [("a", .vArr [.vNum 1, .vNum 2])])
        (.vObj [("a", .vArr [.vNum 3])])
      = .ok (.vObj [("a", .vArr [.vNum 3])])
  ∧ (∀ (base : JsVal) (xs : List JsVal),
      deepMerge base (.vArr xs) = .ok (.vArr xs))
  ∧ (∀ (base : JsVal) (t : Int),
      deepMerge base (.vDate t) = .ok (.vDate t))
  ∧ (∀ (bf f : List (String × JsVal)) (key : String) (xs : List JsVal),
      hasField f key = true → lookupField f key = .vArr xs →
      mergeKeyValue (.vObj bf) f key = .ok (.vArr xs))
  ∧ (∀ (bf f : List (String × JsVal)) (key : String) (t : Int),
      hasField f key = true → lookupField f key = .vDate t →
      mergeKeyValue (.vObj bf) f key = .ok (.vDate t)) := by
  refine ⟨?_, ?_, ?_, ?_, ?_⟩
  · simp [deepMerge, deepMergeKeys, mergeKeyValue, spreadKeys, ownKeys,
      jsGetProp, lookupField, hasField, entryNotNull, JsVal.isMergeable,
      JsVal.isNullish]
  · intro base xs
    simp [deepMerge, JsVal.isNullish]
  · intro base t
    simp [deepMerge, JsVal.isNullish]
  · intro bf f key xs hpres hlook
    have := mergeKeyValue_present_nonmergeable (.vObj bf) f key
      (lookupField bf key) hpres (by rw [hlook]; rfl) (jsGetProp_obj bf key)
    rw [this, hlook]
  · intro bf f key t hpres hlook
    have := mergeKeyValue_present_nonmergeable (.vObj bf) f key
      (lookupField bf key) hpres (by rw [hlook]; rfl) (jsGetProp_obj bf key)
    rw [this, hlook]

/-- Witness for claim C6 at concrete inputs: the key-level override of
an array and of a date each replace the base value wholly. -/
theorem array_date_atomicity_witness :
    (hasField [("a", JsVal.vArr [.vNum 3])] "a" = true
      ∧ lookupField [("a", JsVal.vArr [.vNum 3])] "a" = .vArr [.vNum 3]
      ∧ mergeKeyValue (.vObj [("a", .vArr [.vNum 1, .vNum 2])])
          [("a", JsVal.vArr [.vNum 3])] "a" = .ok (.vArr [.vNum 3]))
  ∧ (hasField [("d", JsVal.vDate 5)] "d" = true
      ∧ lookupField [("d", JsVal.vDate 5)] "d" = .vDate 5
      ∧ mergeKeyValue (.vObj [("d", .vDate 4)]) [("d", JsVal.vDate 5)] "d"
          = .ok (.vDate 5)) :=
  ⟨⟨by simp [hasField], by simp [lookupField],
    array_date_atomicity.2.2.2.1 [("a", .vArr [.vNum 1, .vNum 2])]
      [("a", .vArr [.vNum 3])] "a" [.vNum 3] (by simp [hasField])
      (by simp [lookupField])⟩,
   ⟨by simp [hasField], by simp [lookupField],
    array_date_atomicity.2.2.2.2 [("d", .vDate 4)] [("d", .vDate 5)] "d" 5
      (by simp [hasField]) (by simp [lookupField])⟩⟩

/-- Claim C7 counterexample: with both arguments mergeable objects the
merge does not always produce the union key set — when the overrides
object holds a nonempty object under a key the base lacks, the read of
that key from the undefined base value throws a TypeError and no object
is produced at all. -/
theorem merge_union_throws_counterexample :
    (JsVal.vObj ([] : List (String × JsVal))).isMergeable = true
  ∧ (JsVal.vObj [("a", JsVal.vObj [("b", .vNum 1)])]).isMergeable = true
  ∧ deepMerge (.vObj []) (.vObj [("a", .vObj [("b", .vNum 1)])])
      = .error "TypeError: cannot read properties of undefined" := by
  refine ⟨rfl, rfl, ?_⟩
  simp [deepMerge, deepMergeKeys, mergeKeyValue, spreadKeys, ownKeys,
    jsGetProp, lookupField, hasField, entryNotNull, JsVal.isMergeable,
    JsVal.isNullish]

/-- Claim C7 (amended): whenever the merge of two mergeable objects
returns at all (rather than throwing on a null or undefined base value
under an object-shaped override key), its result is an object whose key
set is exactly the union of the own keys of base and overrides. -/
theorem merged_key_union_amended :
    ∀ (bf ovf : List (String × JsVal)) (r : JsVal),
      deepMerge (.vObj bf) (.vObj ovf) = .ok r →
      ∃ rs, r = .vObj rs ∧
        ∀ k, k ∈ rs.map (·.1) ↔ (k ∈ bf.map (·.1) ∨ k ∈ ovf.map (·.1)) := by
  intro bf ovf r h
  obtain ⟨rs, hrs, hkeys⟩ := deepMerge_obj_ok bf ovf r h
  refine ⟨rs, hrs, ?_⟩
  intro k
  rw [hkeys]
  exact mem_spreadKeys (.vObj bf) (.vObj ovf) k

/-- Witness for the amended claim C7 at a concrete successful merge of
two mergeable objects with distinct keys. -/
theorem merged_key_union_amended_witness :
    deepMerge (.vObj [("a", .vNum 1)]) (.vObj [("b", .vNum 2)])
      = .ok (.vObj [("a", .vNum 1), ("b", .vNum 2)])
  ∧ ∃ rs, JsVal.vObj [("a", .vNum 1), ("b", .vNum 2)] = .vObj rs ∧
      ∀ k, k ∈ rs.map (·.1) ↔
        (k ∈ [("a", JsVal.vNum 1)].map (·.1)
          ∨ k ∈ [("b", JsVal.vNum 2)].map (·.1)) :=
  ⟨by simp [deepMerge, deepMergeKeys, mergeKeyValue, spreadKeys, ownKeys,
      jsGetProp, lookupField, hasField, entryNotNull, JsVal.isMergeable,
      JsVal.isNullish],
   merged_key_union_amended [("a", .vNum 1)] [("b", .vNum 2)]
     (.vObj [("a", .vNum 1), ("b", .vNum 2)])
     (by simp [deepMerge, deepMergeKeys, mergeKeyValue, spreadKeys, ownKeys,
        jsGetProp, lookupField, hasField, entryNotNull, JsVal.isMergeable,
        JsVal.isNullish])⟩

/-- Claim C1: for a factory over defaults a to 1 and b to 2 extended
with a trait T over b to 3, the base call yields a 1 b 2, the trait
call yields a 1 b 3, and the trait call with an override b 9 yields
a 1 b 9; generally, trait registration stores the deep merge of the
current definition and the trait overrides, computed at registration
time, in a new factory whose base definition, previously registered
traits, and base behaviour are unchanged. -/
theorem trait_isolation :
    (∃ F2 : Factory,
      (createFactory (.vObj [("a", .vNum 1), ("b", .vNum 2)])).trait "T"
          (.vObj [("b", .vNum 3)]) = .ok F2
      ∧ F2.defaults = .vObj [("a", .vNum 1), ("b", .vNum 2)]
      ∧ F2.traits = [("T", .vObj [("a", .vNum 1), ("b", .vNum 3)])]
      ∧ (∀ env, (F2.call env .vUndefined).1
          = .ok (.vObj [("a", .vNum 1), ("b", .vNum 2)]))
      ∧ (∀ env, (F2.callTrait env "T" .vUndefined).1
          = .ok (.vObj [("a", .vNum 1), ("b", .vNum 3)]))
      ∧ (∀ env, (F2.callTrait env "T" (.vObj [("b", .vNum 9)])).1
          = .ok (.vObj [("a", .vNum 1), ("b", .vNum 9)])))
  ∧ (∀ (f : Factory) (name : String) (td : JsVal) (f2 : Factory),
      f.trait name td = .ok f2 →
      f2.defaults = f.defaults
      ∧ (∃ m, deepMerge f.defaults td = .ok m
          ∧ f2.traits = setEntry f.traits name m)
      ∧ (∀ n2, n2 ≠ name → findEntry f2.traits n2 = findEntry f.traits n2)
      ∧ (∀ env ov, f2.call env ov = f.call env ov)) := by
  constructor
  · have hm : deepMerge (.vObj [("a", JsVal.vNum 1), ("b", JsVal.vNum 2)])
        (.vObj [("b", JsVal.vNum 3)])
        = .ok (.vObj [("a", .vNum 1), ("b", .vNum 3)]) := by
      simp [deepMerge, deepMergeKeys, mergeKeyValue, spreadKeys, ownKeys,
        jsGetProp, lookupField, hasField, entryNotNull, JsVal.isMergeable,
        JsVal.isNullish]
    refine ⟨⟨.vObj [("a", .vNum 1), ("b", .vNum 2)],
      [("T", .vObj [("a", .vNum 1), ("b", .vNum 3)])]⟩, ?_, rfl, rfl,
      ?_, ?_, ?_⟩
    · rw [Factory.trait]
      simp only [createFactory] at hm ⊢
      rw [hm]
      rfl
    · intro env
      simp only [Factory.call, generateObject, resolveDefaults,
        resolveFields, resolveEntry]
      exact congrArg (fun r => (r, ([] : List Nat)).1) (deepMerge_undef _)
    · intro env
      simp only [Factory.callTrait, generateObject, resolveDefaults,
        resolveFields, resolveEntry, lookupField]
      norm_num
      exact deepMerge_undef _
    · intro env
      simp [Factory.callTrait, generateObject, resolveDefaults,
        resolveFields, resolveEntry, deepMerge, deepMergeKeys,
        mergeKeyValue, spreadKeys, ownKeys, jsGetProp, lookupField,
        hasField, entryNotNull, JsVal.isMergeable, JsVal.isNullish]
  · intro f name td f2 h
    rw [Factory.trait] at h
    cases hd : deepMerge f.defaults td with
    | error e => rw [hd] at h; cases h
    | ok m =>
        rw [hd] at h
        cases h
        exact ⟨rfl, ⟨m, rfl, rfl⟩,
          fun n2 hn2 => findEntry_setEntry_ne f.traits name n2 m hn2,
          fun env ov => rfl⟩

/-- Witness for claim C1: the general trait-registration part applied
to the concrete factory of the example. -/
theorem trait_isolation_witness :
    (createFactory (.vObj [("a", .vNum 1), ("b", .vNum 2)])).trait "T"
        (.vObj [("b", .vNum 3)])
      = .ok ⟨.vObj [("a", .vNum 1), ("b", .vNum 2)],
          [("T", .vObj [("a", .vNum 1), ("b", .vNum 3)])]⟩
  ∧ ((⟨.vObj [("a", .vNum 1), ("b", .vNum 2)],
        [("T", .vObj [("a", .vNum 1), ("b", .vNum 3)])]⟩ : Factory).defaults
      = (createFactory (.vObj [("a", .vNum 1), ("b", .vNum 2)])).defaults
    ∧ (∃ m, deepMerge
          (createFactory (.vObj [("a", .vNum 1), ("b", .vNum 2)])).defaults
          (.vObj [("b", .vNum 3)]) = .ok m
        ∧ (⟨.vObj [("a", .vNum 1), ("b", .vNum 2)],
            [("T", .vObj [("a", .vNum 1), ("b", .vNum 3)])]⟩ : Factory).traits
          = setEntry
              (createFactory (.vObj [("a", .vNum 1), ("b", .vNum 2)])).traits
              "T" m)
    ∧ (∀ n2, n2 ≠ "T" →
        findEntry (⟨.vObj [("a", .vNum 1), ("b", .vNum 2)],
            [("T", .vObj [("a", .vNum 1), ("b", .vNum 3)])]⟩ : Factory).traits
            n2
          = findEntry
              (createFactory (.vObj [("a", .vNum 1), ("b", .vNum 2)])).traits
              n2)
    ∧ (∀ env ov,
        Factory.call ⟨.vObj [("a", .vNum 1), ("b", .vNum 2)],
            [("T", .vObj [("a", .vNum 1), ("b", .vNum 3)])]⟩ env ov
          = Factory.call
              (createFactory (.vObj [("a", .vNum 1), ("b", .vNum 2)])) env
              ov)) := by
  have htr : (createFactory (.vObj [("a", .vNum 1), ("b", .vNum 2)])).trait
      "T" (.vObj [("b", .vNum 3)])
      = .ok ⟨.vObj [("a", .vNum 1), ("b", .vNum 2)],
          [("T", .vObj [("a", .vNum 1), ("b", .vNum 3)])]⟩ := by
    rw [Factory.trait]
    have hm : deepMerge (.vObj [("a", JsVal.vNum 1), ("b", JsVal.vNum 2)])
        (.vObj [("b", JsVal.vNum 3)])
        = .ok (.vObj [("a", .vNum 1), ("b", .vNum 3)]) := by
      simp [deepMerge, deepMergeKeys, mergeKeyValue, spreadKeys, ownKeys,
        jsGetProp, lookupField, hasField, entryNotNull, JsVal.isMergeable,
        JsVal.isNullish]
    simp only [createFactory] at hm ⊢
    rw [hm]
    rfl
  exact ⟨htr, trait_isolation.2
    (createFactory (.vObj [("a", .vNum 1), ("b", .vNum 2)])) "T"
    (.vObj [("b", .vNum 3)]) _ htr⟩

/-- Claim C2: resolution preserves the key set of the definition at
every nesting level (arrays and dates being opaque leaves), the trace
of invoked generator identifiers is exactly the list of function
positions of the definition — each position invoked exactly once per
resolve call, in order — a function position resolves to the value the
function returned, verbatim, with no recursion into it even when it is
object-shaped, and any non-function non-mergeable value is used as-is
without invoking anything. -/
theorem resolve_shape_preservation :
    ∀ (env : Nat → JsVal) (fields : List (String × JsVal)),
      KeysMatch (.vObj fields) (resolveDefaults env (.vObj fields)).1
    ∧ (resolveDefaults env (.vObj fields)).2 = fnPositions (.vObj fields)
    ∧ (∀ i, resolveEntry env (.vFn i) = (env i, [i]))
    ∧ (∀ v : JsVal, v.isFunction = false → v.isMergeable = false →
        resolveEntry env v = (v, [])) := by
  intro env fields
  refine ⟨?_, resolveDefaults_trace env (.vObj fields), fun i => rfl, ?_⟩
  · have h := keysMatch_resolveEntry env (.vObj fields)
    simp only [resolveEntry] at h
    simp only [resolveDefaults]
    exact h
  · intro v hfn hm
    cases v with
    | vFn i => simp [JsVal.isFunction] at hfn
    | vObj fs => simp [JsVal.isMergeable] at hm
    | vNull => rfl
    | vUndefined => rfl
    | vBool b => rfl
    | vNum n => rfl
    | vStr s => rfl
    | vArr xs => rfl
    | vDate t => rfl

/-- Witness for claim C2: the as-is clause applied to an array leaf of
a concrete resolution. -/
theorem resolve_shape_preservation_witness :
    (JsVal.vArr [.vNum 1]).isFunction = false
  ∧ (JsVal.vArr [.vNum 1]).isMergeable = false
  ∧ resolveEntry defaultEnv (.vArr [.vNum 1]) = (.vArr [.vNum 1], []) :=
  ⟨rfl, rfl,
    (resolve_shape_preservation defaultEnv [("a", .vNum 1)]).2.2.2
      (.vArr [.vNum 1]) rfl rfl⟩

/-- Claim C5 counterexample: many performs no validation at all — a
negative count silently yields an empty list instead of an error, and a
non-integer count is silently truncated, generating objects rather than
rejecting before generation. -/
theorem many_no_validation_counterexample :
    generateManyObjects defaultEnv (-1) (.vObj [("x", .vNum 1)]) .vUndefined
      = .ok []
  ∧ generateManyObjects defaultEnv (5 / 2) (.vObj [("x", .vNum 1)]) .vUndefined
      = .ok [.vObj [("x", .vNum 1)], .vObj [("x", .vNum 1)]] := by
  constructor
  · simp [generateManyObjects, toLengthNat, genObjects]
  · have hn : toLengthNat (5 / 2) = 2 := by
      rw [toLengthNat, if_neg (by norm_num)]
      norm_num [Rat.floor_def']
      rfl
    rw [generateManyObjects, hn]
    simp [genObjects, generateObject, resolveDefaults, resolveFields,
      resolveEntry, deepMerge, JsVal.isNullish]

/-- Claim C5 (amended): many never rejects a count — the count passes
through the array length coercion of Array.from, so a zero or negative
count yields an empty sequence with no error, and any successfully
generated sequence has the truncated, clamped count as its length. -/
theorem many_count_coercion_amended :
    ∀ (env : Nat → JsVal) (count : ℚ) (defaults ov : JsVal),
      generateManyObjects env 0 defaults ov = .ok []
    ∧ (count ≤ 0 → generateManyObjects env count defaults ov = .ok [])
    ∧ (∀ l, generateManyObjects env count defaults ov = .ok l →
        l.length = toLengthNat count) := by
  intro env count defaults ov
  refine ⟨?_, ?_, ?_⟩
  · simp [generateManyObjects, toLengthNat, genObjects]
  · intro hle
    rw [generateManyObjects, toLengthNat, if_pos hle]
    rfl
  · intro l h
    exact genObjects_length env defaults ov (toLengthNat count) l h

/-- Witness for the amended claim C5: the negative-count clause and the
length clause at concrete inputs. -/
theorem many_count_coercion_amended_witness :
    ((-1 : ℚ) ≤ 0
      ∧ generateManyObjects defaultEnv (-1) (.vObj [("x", .vNum 1)]) .vUndefined
          = .ok [])
  ∧ (generateManyObjects defaultEnv (5 / 2) (.vObj [("x", .vNum 1)]) .vUndefined
        = .ok [.vObj [("x", .vNum 1)], .vObj [("x", .vNum 1)]]
      ∧ ([JsVal.vObj [("x", .vNum 1)], .vObj [("x", .vNum 1)]]).length
          = toLengthNat (5 / 2)) := by
  have hgen : generateManyObjects defaultEnv (5 / 2)
      (.vObj [("x", .vNum 1)]) .vUndefined
      = .ok [.vObj [("x", .vNum 1)], .vObj [("x", .vNum 1)]] := by
    have hn : toLengthNat (5 / 2) = 2 := by
      rw [toLengthNat, if_neg (by norm_num)]
      norm_num [Rat.floor_def']
      rfl
    rw [generateManyObjects, hn]
    simp [genObjects, generateObject, resolveDefaults, resolveFields,
      resolveEntry, deepMerge, JsVal.isNullish]
  exact ⟨⟨by norm_num,
    (many_count_coercion_amended defaultEnv (-1) (.vObj [("x", .vNum 1)])
      .vUndefined).2.1 (by norm_num)⟩,
    ⟨hgen,
    (many_count_coercion_amended defaultEnv (5 / 2) (.vObj [("x", .vNum 1)])
      .vUndefined).2.2 _ hgen⟩⟩

/-- Claim C9: the argumentless sequence yields 0, 1, 2 on successive
calls, the prefixed sequence yields the prefix followed by 0, 1, 2, a
custom definition f yields f 0, f 1, and so on; every sequence owns a
private counter that starts at 0 and is incremented by exactly one per
invocation, and the outputs of one sequence are unaffected by arbitrary
interleaved invocations of another. -/
theorem sequence_determinism :
    seqRun (createSequence .noArg) 3 0 = [.vNum 0, .vNum 1, .vNum 2]
  ∧ seqRun (createSequence (.str "u-")) 3 0
      = [.vStr "u-0", .vStr "u-1", .vStr "u-2"]
  ∧ (∀ (f : Nat → JsVal) (n : Nat),
      seqRun (createSequence (.fn f)) n 0 = (List.range n).map f)
  ∧ (∀ (f : Nat → JsVal) (i : Nat), seqCall f i = (f i, i + 1))
  ∧ (∀ (f : Nat → JsVal) (n i : Nat), seqCounter f n i = i + n)
  ∧ (∀ (f g : Nat → JsVal) (cs : List Bool) (i j : Nat),
      runTwoA f g cs (i, j) = (List.range' i (cs.count true)).map f) := by
  refine ⟨?_, ?_, ?_, fun f i => rfl, fun f n i => seqCounter_eq f n i,
    fun f g cs i j => runTwoA_eq_map_range' f g cs i j⟩
  · rfl
  · rfl
  · intro f n
    rw [createSequence, seqRun_eq_map_range' f n 0, List.range_eq_range']

/-- Claim C10 (implicit): for a defaults definition with no generator
function at any position, factory generation does not depend on the
function environment at all — any two calls with equal override trees
produce equal results, all nondeterminism coming only from generator
functions. -/
theorem generation_determinism :
    ∀ (D ov : JsVal) (env1 env2 : Nat → JsVal),
      fnPositions D = [] →
      Factory.call (createFactory D) env1 ov
        = Factory.call (createFactory D) env2 ov := by
  intro D ov env1 env2 h
  simp only [Factory.call, createFactory, generateObject]
  rw [resolveDefaults_env_indep env1 env2 D h]

/-- Witness for claim C10 at a function-free concrete definition and
two different environments. -/
theorem generation_determinism_witness :
    fnPositions (.vObj [("x", .vNum 1)]) = []
  ∧ Factory.call (createFactory (.vObj [("x", .vNum 1)])) defaultEnv .vUndefined
      = Factory.call (createFactory (.vObj [("x", .vNum 1)]))
          (fun _ => .vNum 42) .vUndefined :=
  ⟨rfl, generation_determinism (.vObj [("x", .vNum 1)]) .vUndefined defaultEnv
    (fun _ => .vNum 42) rfl⟩

/-- Claim C8: associate returns a new factory with the base definition
and the traits unchanged and the derivation function registered in the
association state; for the post factory deriving userId from the id of
a supplied user, the with operation returns a new factory over the
combined definition — carrying the state forward — whose call yields
userId 7, while the plain call of the original factory still yields
the base userId 0: the original factory is untouched. -/
theorem association_scoping :
    (∀ (f : AFactory) (k : String) (apply : JsVal → JsVal),
        (f.associate k apply).defaults = f.defaults
      ∧ (f.associate k apply).traits = f.traits
      ∧ (f.associate k apply).assocs = setEntry f.assocs k apply)
  ∧ AFactory.withAssociations
      ((createFactoryA (.vObj [("id", .vNum 0), ("userId", .vNum 0)]))
          |>.associate "user" userDerive)
      [("user", .vObj [("id", .vNum 7)])]
      = .ok ⟨.vObj [("id", .vNum 0), ("userId", .vNum 7)], [],
          [("user", userDerive)]⟩
  ∧ (∀ env, (AFactory.call
        ⟨.vObj [("id", .vNum 0), ("userId", .vNum 7)], [],
          [("user", userDerive)]⟩ env .vUndefined).1
      = .ok (.vObj [("id", .vNum 0), ("userId", .vNum 7)]))
  ∧ jsGet (.vObj [("id", .vNum 0), ("userId", .vNum 7)]) "userId" = .vNum 7
  ∧ (∀ env, (AFactory.call
        ((createFactoryA (.vObj [("id", .vNum 0), ("userId", .vNum 0)]))
            |>.associate "user" userDerive) env .vUndefined).1
      = .ok (.vObj [("id", .vNum 0), ("userId", .vNum 0)]))
  ∧ jsGet (.vObj [("id", .vNum 0), ("userId", .vNum 0)]) "userId" = .vNum 0
  ∧ ((createFactoryA (.vObj [("id", .vNum 0), ("userId", .vNum 0)]))
        |>.associate "user" userDerive).defaults
      = .vObj [("id", .vNum 0), ("userId", .vNum 0)] := by
  refine ⟨fun f k apply => ⟨rfl, rfl, rfl⟩, ?_, ?_, rfl, ?_, rfl, rfl⟩
  · simp [AFactory.withAssociations, AFactory.associate, createFactoryA,
      combineAssociations, setEntry, findEntry, userDerive, jsGet,
      deepMerge, deepMergeKeys, mergeKeyValue, spreadKeys, ownKeys,
      jsGetProp, lookupField, hasField, entryNotNull, JsVal.isMergeable,
      JsVal.isNullish]
  · intro env
    simp only [AFactory.call, generateObject, resolveDefaults,
      resolveFields, resolveEntry]
    exact congrArg (fun r => (r, ([] : List Nat)).1) (deepMerge_undef _)
  · intro env
    simp only [AFactory.call, AFactory.associate, createFactoryA,
      generateObject, resolveDefaults, resolveFields, resolveEntry]
    exact congrArg (fun r => (r, ([] : List Nat)).1) (deepMerge_undef _)

end ZeroFactory
